import Mathlib

/-!
Shallow embedding of the todo-backend repository (Go): the models
package (todo store over a string-keyed map, CSV serialization) and the
relevant parts of the controllers package (sorting for GET /todos, the
PUT handler).

Go maps are embedded as association lists with pairwise-distinct keys
(`mapLookup` / `mapInsert` give the map semantics); the unspecified
iteration order of a Go `for range` over a map is embedded by
quantifying over an arbitrary permutation `iter` of the store's
entries.  Machine-integer overflow never matters here (lengths and row
indices are small naturals), so `Nat` is used directly.
-/

namespace TodoBackend

/-- The `Todo` record of the models package:
`Id`, `Title`, `Description` are Go strings, `Terminated` a bool. -/
structure Todo where
  id : String
  title : String
  description : String
  terminated : Bool
deriving DecidableEq, Repr

/-- Go `strconv.FormatBool`: "true" or "false". -/
def FormatBool (b : Bool) : String := if b then "true" else "false"

/-- `Todo.Serialize`: the CSV row `[Id, Title, Description, FormatBool(Terminated)]`. -/
def Todo.Serialize (t : Todo) : List String :=
  [t.id, t.title, t.description, FormatBool t.terminated]

/-- Go `strconv.ParseBool`: accepts exactly "1", "t", "T", "TRUE", "true",
"True" (true) and "0", "f", "F", "FALSE", "false", "False" (false);
anything else is an error (`none`). -/
def ParseBool (s : String) : Option Bool :=
  if s = "1" ∨ s = "t" ∨ s = "T" ∨ s = "TRUE" ∨ s = "true" ∨ s = "True" then some true
  else if s = "0" ∨ s = "f" ∨ s = "F" ∨ s = "FALSE" ∨ s = "false" ∨ s = "False" then some false
  else none

/-- `ToBool` of the models package: `strconv.ParseBool`, ignoring the
error (Go's zero value `false` is returned on a parse error). -/
def ToBool (info : String) : Bool := (ParseBool info).getD false

/-- `parseTodoData`: builds a `Todo` from the first four fields of a CSV
record.  The Go code indexes `rec[0] .. rec[3]` and panics on a shorter
record; the embedding totalizes those accesses with `getD _ ""`, and
every theorem about it only ever applies it to records with at least
four fields, where the default is never reached. -/
def parseTodoData (rec : List String) : Todo :=
  { id := rec.getD 0 ""
    title := rec.getD 1 ""
    description := rec.getD 2 ""
    terminated := ToBool (rec.getD 3 "") }

/-- Fuel-based digit emitter behind `Itoa`: emits the decimal digits of
`n` most-significant first, dividing by 10, exactly as `strconv.Itoa`
formats a nonnegative int.  The fuel argument only makes the recursion
structural; `Itoa` always supplies enough fuel. -/
def itoaCore (fuel n : Nat) : List Char :=
  match fuel with
  | 0 => []
  | fuel + 1 =>
    if n < 10 then [Nat.digitChar n]
    else itoaCore fuel (n / 10) ++ [Nat.digitChar (n % 10)]

/-- Go `strconv.Itoa` restricted to naturals (the code only ever formats
lengths and row indices, which are nonnegative). -/
def Itoa (n : Nat) : String := ⟨itoaCore (n + 1) n⟩

/-- Decimal decoder: reading digit characters left to right.  Used both
to prove `Itoa` injective and inside the `Atoi` model. -/
def charsToNat (cs : List Char) : Nat :=
  cs.foldl (fun a c => a * 10 + (c.toNat - 48)) 0

/-- The todo store: a Go `map[string]Todo`, embedded as an association
list whose keys are pairwise distinct. -/
abbrev Store := List (String × Todo)

/-- The keys of a store. -/
def keys (m : Store) : List String := m.map Prod.fst

/-- Go map read `m[k]` (the `value, ok` form): the value at key `k`, if
present. -/
def mapLookup (m : Store) (k : String) : Option Todo :=
  match m with
  | [] => none
  | (k1, v) :: rest => if k1 = k then some v else mapLookup rest k

/-- Go map write `m[k] = v`: overwrite in place when `k` is present,
otherwise add a new entry. -/
def mapInsert (m : Store) (k : String) (v : Todo) : Store :=
  match m with
  | [] => [(k, v)]
  | (k1, v1) :: rest => if k1 = k then (k, v) :: rest else (k1, v1) :: mapInsert rest k v

/-- `AddTodo`: the new ID is the current store size rendered in decimal
(`strconv.Itoa(len(todoStore))`); the input todo's `Id` is overwritten
with it, the record is inserted at that key and returned. -/
def AddTodo (s : Store) (todo : Todo) : Todo × Store :=
  let indexAsString := Itoa s.length
  let todo1 := { todo with id := indexAsString }
  (todo1, mapInsert s indexAsString todo1)

/-- `UpdateTodo`: not-found (zero-value todo, false) when `id` is
absent, with the store untouched; otherwise the todo's `Id` field is set
to `id` when the two differ and the entry at `id` is overwritten. -/
def UpdateTodo (s : Store) (id : String) (todo : Todo) : Todo × Bool × Store :=
  match mapLookup s id with
  | none => (⟨"", "", "", false⟩, false, s)
  | some _ =>
    let todo1 := if id ≠ todo.id then { todo with id := id } else todo
    (todo1, true, mapInsert s id todo1)

/-- The `for _, currentTodo := range todoStore` loop of `RemoveTodo`:
keeps every visited todo whose `Id` field differs from `id`, renumbering
the kept todos 0, 1, 2, … in visit order into the fresh map `acc`. -/
def removeLoop (id : String) : List (String × Todo) → Nat → Store → Store
  | [], _, acc => acc
  | (_, currentTodo) :: rest, index, acc =>
    if id ≠ currentTodo.id then
      let indexAsString := Itoa index
      removeLoop id rest (index + 1)
        (mapInsert acc indexAsString { currentTodo with id := indexAsString })
    else removeLoop id rest index acc

/-- `RemoveTodo`: false when `id` is absent; otherwise rebuilds the
store from a fresh map by the renumbering loop.  `iter` is the order in
which Go's `for range` visits the entries: an arbitrary permutation of
the store, universally quantified in the theorems about this
function. -/
def RemoveTodo (s : Store) (id : String) (iter : List (String × Todo)) : Bool × Store :=
  match mapLookup s id with
  | none => (false, s)
  | some _ => (true, removeLoop id iter 0 [])

/-- Order-only description of the `RemoveTodo` loop: the entries the
loop produces, in production order.  The loop's inserts into the fresh
map always use fresh keys, so the map it builds is exactly this list
(`removeLoop_eq`). -/
def renumber (id : String) : List (String × Todo) → Nat → Store
  | [], _ => []
  | (_, currentTodo) :: rest, index =>
    if id ≠ currentTodo.id then
      (Itoa index, { currentTodo with id := Itoa index }) :: renumber id rest (index + 1)
    else renumber id rest index

/-- `DeleteAllTodos`: resets the store to a fresh empty map. -/
def DeleteAllTodos (_s : Store) : Store := []

/-- `clone`: copies every entry of the store into a fresh map, visiting
entries in the arbitrary order `iter`. -/
def clone (iter : List (String × Todo)) : Store :=
  iter.foldl (fun m2 kv => mapInsert m2 kv.1 kv.2) []

/-- A tiny heap of Go map values, for the aliasing claim about
`TodoStore`: map references are naturals, `maps r` gives the entries the
map at reference `r` currently holds, `storeRef` is the reference held
by the package-level `todoStore` variable, and references at or above
`nextRef` are unallocated. -/
structure Heap where
  maps : Nat → Store
  storeRef : Nat
  nextRef : Nat

/-- A heap is well formed when the store's reference is allocated. -/
def Heap.WF (h : Heap) : Prop := h.storeRef < h.nextRef

/-- `TodoStore`: returns `clone(todoStore)` — a freshly allocated map
holding a copy of every entry, never the store's own reference.  `iter`
is the order in which `clone`'s loop visits the store's entries. -/
def TodoStore (h : Heap) (iter : List (String × Todo)) : Nat × Heap :=
  (h.nextRef,
    { maps := fun r => if r = h.nextRef then clone iter else h.maps r
      storeRef := h.storeRef
      nextRef := h.nextRef + 1 })

/-- Writing `m[k] = v` through the map reference `r`. -/
def heapAssign (h : Heap) (r : Nat) (k : String) (v : Todo) : Heap :=
  { h with maps := fun r1 => if r1 = r then mapInsert (h.maps r) k v else h.maps r1 }

/-- The row-reading loop of `getDataFromFile`: each CSV record is parsed
and stored at key `strconv.Itoa(rowIndex)`, row indices counting up in
file order. -/
def readRows : List (List String) → Nat → Store → Store
  | [], _, acc => acc
  | rec :: rest, rowIndex, acc =>
    readRows rest (rowIndex + 1) (mapInsert acc (Itoa rowIndex) (parseTodoData rec))

/-- `getDataFromFile`, successful path: the rows of `data.csv` (the file
itself is outside the embedding, so the function takes the parsed CSV
records) become a fresh map keyed "0", "1", … in file order. -/
def getDataFromFile (rows : List (List String)) : Store := readRows rows 0 []

/-- Order-only description of the `getDataFromFile` loop
(`readRows_eq`). -/
def readRowsList : List (List String) → Nat → Store
  | [], _ => []
  | rec :: rest, rowIndex =>
    (Itoa rowIndex, parseTodoData rec) :: readRowsList rest (rowIndex + 1)

/-- `Initialize` with file persistence enabled and a successful read:
the package store is replaced wholesale by the file's contents; the
previous store does not contribute. -/
def Initialize (rows : List (List String)) (_old : Store) : Store := getDataFromFile rows

/-- Decimal digit run for `Atoi`: at least one character, all digits. -/
def decDigits (cs : List Char) : Option Nat :=
  if cs ≠ [] ∧ cs.all Char.isDigit then some (charsToNat cs) else none

/-- The exact decimal reading behind `Atoi`: an optional sign followed
by at least one digit denotes that integer; anything else is a syntax
error and Go's zero value 0 is used. -/
def atoiExact (s : String) : Int :=
  match s.data with
  | '+' :: cs => match decDigits cs with | some n => (n : Int) | none => 0
  | '-' :: cs => match decDigits cs with | some n => -(n : Int) | none => 0
  | cs => match decDigits cs with | some n => (n : Int) | none => 0

/-- Go `strconv.Atoi` on a 64-bit platform with the error dropped, as
the comparator in `sortTodosAfterIdAscending` drops it: a syntax error
yields the zero value 0, and a value outside the int64 range yields the
clamped boundary (`ParseInt` returns the maximum-magnitude int64 of the
appropriate sign together with `ErrRange`, and the comparator keeps that
clamped value). -/
def Atoi (s : String) : Int :=
  if atoiExact s > 2 ^ 63 - 1 then 2 ^ 63 - 1
  else if atoiExact s < -(2 ^ 63) then -(2 ^ 63)
  else atoiExact s

/-- Modelled from the spec: C4's "numeric value of the Id field" read
literally — the exact integer the Id denotes in decimal, with no
machine-integer range clamping.  It exists only to compare the spec's
wording against the source's comparator key `Atoi`, which clamps
out-of-int64-range ids; the two agree on the int64 range
(`atoi_eq_exact`). -/
def exactIdValue (t : Todo) : Int := atoiExact t.id

/-- Ordering key of the GET /todos comparator: the todo's `Id` parsed by
`strconv.Atoi`. -/
def idKey (t : Todo) : Int := Atoi t.id

/-- Insertion of one todo into an already sorted list, preserving the
comparator's order. -/
def insertById (t : Todo) : List Todo → List Todo
  | [] => [t]
  | u :: rest => if idKey t ≤ idKey u then t :: u :: rest else u :: insertById t rest

/-- `sortTodosAfterIdAscending`: `sort.Slice` with the comparator
`Atoi(todos[i].Id) < Atoi(todos[j].Id)`.  `sort.Slice` promises exactly
some permutation of the slice that is non-decreasing under the
comparator; the embedding realizes that contract with an insertion
sort. -/
def sortTodosAfterIdAscending (todos : List Todo) : List Todo :=
  todos.foldr insertById []

/-- `TodosGet`: collects the store's values in map-iteration order
`iter` (an arbitrary permutation of the store) and sorts them. -/
def TodosGet (iter : List (String × Todo)) : List Todo :=
  sortTodosAfterIdAscending (iter.map Prod.snd)

/-- Outcome of the PUT /todos/:id handler: the status it writes and, on
success, the record it echoes. -/
inductive PutResult where
  | notFound
  | badRequest (title : String)
  | okUpdated (todo : Todo)
deriving DecidableEq, Repr

/-- `TodoPut`: looks the id up first (in a `TodoStore()` snapshot, whose
lookups agree with the store's) and 404s on a miss before the body is
read; then decodes the body (`none` models a body that fails to decode;
400 "Invalid Body"); then updates and echoes the updated record with
200.  The defensive 400 branch for an `UpdateTodo` failure is kept from
the code, though it cannot fire single-threaded. -/
def TodoPut (s : Store) (id : String) (body : Option Todo) : PutResult × Store :=
  match mapLookup s id with
  | none => (.notFound, s)
  | some _ =>
    match body with
    | none => (.badRequest "Invalid Body", s)
    | some todoReceived =>
      let r := UpdateTodo s id todoReceived
      match r.2.1 with
      | false => (.badRequest "Update data model failed", s)
      | true => (.okUpdated r.1, r.2.2)

/-- Repeated `AddTodo` (the POST handler's store action), returning the
records handed back to the callers, in call order. -/
def addAll (s : Store) : List Todo → List Todo × Store
  | [] => ([], s)
  | t :: rest =>
    let r := AddTodo s t
    let r2 := addAll r.2 rest
    (r.1 :: r2.1, r2.2)

/-- Store states reachable from the empty store through the four store
mutations.  `RemoveTodo`'s map-iteration order is free: any permutation
of the current entries may drive its loop. -/
inductive Reachable : Store → Prop
  | empty : Reachable []
  | add (s : Store) (t : Todo) : Reachable s → Reachable (AddTodo s t).2
  | update (s : Store) (id : String) (t : Todo) :
      Reachable s → Reachable (UpdateTodo s id t).2.2
  | remove (s : Store) (id : String) (iter : List (String × Todo)) :
      Reachable s → iter.Perm s → Reachable (RemoveTodo s id iter).2
  | deleteAll (s : Store) : Reachable s → Reachable (DeleteAllTodos s)

/-- The store invariant of the reachable states: keys are pairwise
distinct (Go map semantics), the key set is exactly the decimal strings
of 0 … n-1 for n the size, and every stored todo's `Id` field equals its
key. -/
def StoreInv (s : Store) : Prop :=
  (keys s).Nodup ∧
  (∀ k, k ∈ keys s ↔ ∃ i, i < s.length ∧ k = Itoa i) ∧
  (∀ p ∈ s, p.2.id = p.1)

/-! Theorems. -/

theorem charsToNat_append (xs : List Char) (c : Char) :
    charsToNat (xs ++ [c]) = charsToNat xs * 10 + (c.toNat - 48) := by
  simp [charsToNat, List.foldl_append]

theorem digitChar_decode : ∀ d, d < 10 → (Nat.digitChar d).toNat - 48 = d := by decide

theorem charsToNat_itoaCore : ∀ (fuel n : Nat), n < 10 ^ fuel →
    charsToNat (itoaCore fuel n) = n := by
  intro fuel
  induction fuel with
  | zero =>
    intro n hn
    interval_cases n
    simp [itoaCore, charsToNat]
  | succ fuel ih =>
    intro n hn
    by_cases h : n < 10
    · simp [itoaCore, h, charsToNat, digitChar_decode n h]
    · have hdiv : n / 10 < 10 ^ fuel := by
        rw [Nat.div_lt_iff_lt_mul (by norm_num : 0 < 10)]
        rw [pow_succ] at hn
        omega
      simp only [itoaCore, if_neg h, charsToNat_append]
      rw [ih (n / 10) hdiv, digitChar_decode (n % 10) (Nat.mod_lt n (by norm_num))]
      omega

theorem lt_pow_ten (n : Nat) : n < 10 ^ (n + 1) := by
  calc n < 10 ^ n := Nat.lt_pow_self (by norm_num) n
  _ ≤ 10 ^ (n + 1) := Nat.pow_le_pow_right (by norm_num) (Nat.le_succ n)

theorem Itoa_injective : Function.Injective Itoa := by
  intro n m h
  have hchars : itoaCore (n + 1) n = itoaCore (m + 1) m := by
    have := congrArg String.data h
    simpa [Itoa] using this
  have hn := charsToNat_itoaCore (n + 1) n (lt_pow_ten n)
  have hm := charsToNat_itoaCore (m + 1) m (lt_pow_ten m)
  rw [← hn, ← hm, hchars]

/-- C3: parsing the CSV row produced by `Serialize` returns the original
todo; the only non-trivial field is the bool, where
`ToBool (FormatBool b) = b` because `ParseBool` accepts exactly the
strings "true" and "false" that `FormatBool` emits. -/
theorem serialize_roundTrip (t : Todo) : parseTodoData t.Serialize = t := by
  cases t with
  | mk id title description terminated =>
    cases terminated <;>
      simp [Todo.Serialize, parseTodoData, ToBool, ParseBool, FormatBool, List.getD]

theorem keys_cons (p : String × Todo) (m : Store) : keys (p :: m) = p.1 :: keys m := rfl

theorem keys_append (m1 m2 : Store) : keys (m1 ++ m2) = keys m1 ++ keys m2 := by
  simp [keys]

theorem keys_length (m : Store) : (keys m).length = m.length := by
  simp [keys]

theorem mapLookup_eq_none (m : Store) (k : String) :
    mapLookup m k = none ↔ k ∉ keys m := by
  induction m with
  | nil => simp [mapLookup, keys]
  | cons p rest ih =>
    obtain ⟨k1, v⟩ := p
    by_cases h : k1 = k
    · subst h
      simp [mapLookup, keys]
    · simp only [mapLookup, if_neg h, ih, keys_cons, List.mem_cons]
      constructor
      · intro hk hor
        rcases hor with he | hm
        · exact h he.symm
        · exact hk hm
      · intro hk hm
        exact hk (Or.inr hm)

theorem mapLookup_mem (m : Store) (k : String) (v : Todo) :
    mapLookup m k = some v → (k, v) ∈ m := by
  induction m with
  | nil => simp [mapLookup]
  | cons p rest ih =>
    obtain ⟨k1, v1⟩ := p
    by_cases h : k1 = k
    · subst h
      intro he
      have hv : v1 = v := by simpa [mapLookup] using he
      subst hv
      exact List.mem_cons_self ..
    · simp [mapLookup, h]
      intro hl
      exact Or.inr (ih hl)

theorem mem_mapLookup (m : Store) (hnd : (keys m).Nodup) (k : String) (v : Todo) :
    (k, v) ∈ m → mapLookup m k = some v := by
  induction m with
  | nil => simp
  | cons p rest ih =>
    obtain ⟨k1, v1⟩ := p
    rw [keys_cons] at hnd
    intro hmem
    rcases List.mem_cons.1 hmem with heq | hrest
    · injection heq with h1 h2
      subst h1
      subst h2
      simp [mapLookup]
    · have hk : k1 ≠ k := by
        intro he
        subst he
        exact (List.nodup_cons.1 hnd).1 (by
          simpa [keys] using List.mem_map_of_mem Prod.fst hrest)
      simp [mapLookup, hk]
      exact ih (List.nodup_cons.1 hnd).2 hrest

theorem mapInsert_fresh (m : Store) (k : String) (v : Todo) (h : k ∉ keys m) :
    mapInsert m k v = m ++ [(k, v)] := by
  induction m with
  | nil => simp [mapInsert]
  | cons p rest ih =>
    obtain ⟨k1, v1⟩ := p
    rw [keys_cons] at h
    have hk : k1 ≠ k := fun he => h (he ▸ List.mem_cons_self k1 (keys rest))
    simp [mapInsert, hk]
    exact ih (fun hm => h (List.mem_cons_of_mem k1 hm))

theorem keys_mapInsert_of_mem (m : Store) (k : String) (v : Todo) (h : k ∈ keys m) :
    keys (mapInsert m k v) = keys m := by
  induction m with
  | nil => simp [keys] at h
  | cons p rest ih =>
    obtain ⟨k1, v1⟩ := p
    by_cases hk : k1 = k
    · subst hk
      simp [mapInsert, keys_cons]
    · rw [keys_cons] at h
      rcases List.mem_cons.1 h with he | hm
      · exact absurd he.symm hk
      · simp [mapInsert, hk, keys_cons, ih hm]

theorem length_mapInsert_of_mem (m : Store) (k : String) (v : Todo) (h : k ∈ keys m) :
    (mapInsert m k v).length = m.length := by
  rw [← keys_length, ← keys_length m, keys_mapInsert_of_mem m k v h]

theorem mem_mapInsert (m : Store) (k : String) (v : Todo) (p : String × Todo) :
    p ∈ mapInsert m k v → p = (k, v) ∨ p ∈ m := by
  induction m with
  | nil => simp [mapInsert]
  | cons q rest ih =>
    obtain ⟨k1, v1⟩ := q
    by_cases hk : k1 = k
    · subst hk
      simp [mapInsert]
      intro h
      rcases h with h | h
      · exact Or.inl h
      · exact Or.inr (Or.inr h)
    · simp [mapInsert, hk]
      intro h
      rcases h with h | h
      · exact Or.inr (Or.inl h)
      · rcases ih h with h1 | h1
        · exact Or.inl h1
        · exact Or.inr (Or.inr h1)

theorem mapLookup_perm (m iter : Store) (hnd : (keys m).Nodup) (hp : iter.Perm m)
    (k : String) : mapLookup iter k = mapLookup m k := by
  have hkp : (keys iter).Perm (keys m) := hp.map Prod.fst
  have hnd2 : (keys iter).Nodup := (hkp.nodup_iff).2 hnd
  cases hm : mapLookup m k with
  | none =>
    rw [mapLookup_eq_none] at hm ⊢
    exact fun hk => hm (hkp.mem_iff.1 hk)
  | some v =>
    exact mem_mapLookup iter hnd2 k v (hp.mem_iff.2 (mapLookup_mem m k v hm))

theorem clone_loop (iter : List (String × Todo)) :
    ∀ acc : Store, (keys iter).Nodup → (∀ k ∈ keys iter, k ∉ keys acc) →
    iter.foldl (fun m2 kv => mapInsert m2 kv.1 kv.2) acc = acc ++ iter := by
  induction iter with
  | nil => simp
  | cons p rest ih =>
    intro acc hnd hfresh
    obtain ⟨k, v⟩ := p
    rw [keys_cons] at hnd hfresh
    have hk : k ∉ keys acc := hfresh k (List.mem_cons_self k (keys rest))
    rw [List.foldl_cons]
    have step : mapInsert acc k v = acc ++ [(k, v)] := mapInsert_fresh acc k v hk
    rw [step, ih (acc ++ [(k, v)]) (List.nodup_cons.1 hnd).2 ?fresh, List.append_assoc]
    rfl
    case fresh =>
      intro k1 hk1
      rw [keys_append]
      intro hmem
      rcases List.mem_append.1 hmem with h | h
      · exact hfresh k1 (List.mem_cons_of_mem k hk1) h
      · have : k1 = k := by simpa [keys] using h
        exact (List.nodup_cons.1 hnd).1 (this ▸ hk1)

theorem clone_eq (iter : List (String × Todo)) (hnd : (keys iter).Nodup) :
    clone iter = iter := by
  have := clone_loop iter [] hnd (by simp [keys])
  simpa [clone] using this

theorem removeLoop_eq (id : String) :
    ∀ (entries : List (String × Todo)) (index : Nat) (acc : Store),
    (∀ j, index ≤ j → Itoa j ∉ keys acc) →
    removeLoop id entries index acc = acc ++ renumber id entries index := by
  intro entries
  induction entries with
  | nil =>
    intro index acc hfresh
    simp [removeLoop, renumber]
  | cons p rest ih =>
    intro index acc hfresh
    obtain ⟨k, cur⟩ := p
    by_cases h : id ≠ cur.id
    · simp only [removeLoop, renumber, if_pos h]
      rw [mapInsert_fresh acc (Itoa index) _ (hfresh index le_rfl)]
      have hfresh2 : ∀ j, index + 1 ≤ j →
          Itoa j ∉ keys (acc ++ [(Itoa index, { cur with id := Itoa index })]) := by
        intro j hj
        rw [keys_append]
        intro hmem
        rcases List.mem_append.1 hmem with hm | hm
        · exact hfresh j (by omega) hm
        · have he : Itoa j = Itoa index := by simpa [keys] using hm
          have : j = index := Itoa_injective he
          omega
      rw [ih (index + 1) _ hfresh2, List.append_assoc]
      rfl
    · simp only [removeLoop, renumber, if_neg h]
      exact ih index acc hfresh

theorem removeLoop_renumber (id : String) (entries : List (String × Todo)) :
    removeLoop id entries 0 [] = renumber id entries 0 := by
  have := removeLoop_eq id entries 0 [] (by intro j hj; simp [keys])
  simpa using this

theorem renumber_length (id : String) :
    ∀ (entries : List (String × Todo)) (index : Nat),
    (renumber id entries index).length = entries.countP (fun p => decide (id ≠ p.2.id)) := by
  intro entries
  induction entries with
  | nil =>
    intro index
    simp [renumber]
  | cons p rest ih =>
    intro index
    obtain ⟨k, cur⟩ := p
    by_cases h : id ≠ cur.id
    · simp [renumber, if_pos h, ih, List.countP_cons, h]
    · simp [renumber, if_neg h, ih, List.countP_cons, h]

theorem renumber_keys (id : String) :
    ∀ (entries : List (String × Todo)) (index : Nat),
    keys (renumber id entries index) =
      (List.range' index (renumber id entries index).length).map Itoa := by
  intro entries
  induction entries with
  | nil =>
    intro index
    simp [renumber, keys]
  | cons p rest ih =>
    intro index
    obtain ⟨k, cur⟩ := p
    by_cases h : id ≠ cur.id
    · simp only [renumber, if_pos h, keys_cons, List.length_cons, ih, List.range'_succ,
        List.map_cons]
    · simp only [renumber, if_neg h]
      exact ih index

theorem renumber_id_eq_key (id : String) :
    ∀ (entries : List (String × Todo)) (index : Nat),
    ∀ p ∈ renumber id entries index, p.2.id = p.1 := by
  intro entries
  induction entries with
  | nil =>
    intro index p hp
    simp [renumber] at hp
  | cons q rest ih =>
    intro index p hp
    obtain ⟨k, cur⟩ := q
    by_cases h : id ≠ cur.id
    · simp only [renumber, if_pos h, List.mem_cons] at hp
      rcases hp with he | hm
      · subst he
        rfl
      · exact ih (index + 1) p hm
    · simp only [renumber, if_neg h] at hp
      exact ih index p hp

theorem countP_keep_of_inv (id : String) :
    ∀ s : Store, (keys s).Nodup → (∀ p ∈ s, p.2.id = p.1) → id ∈ keys s →
    s.countP (fun p => decide (id ≠ p.2.id)) = s.length - 1 := by
  intro s
  induction s with
  | nil =>
    intro _ _ hmem
    simp [keys] at hmem
  | cons q rest ih =>
    intro hnd hid hmem
    obtain ⟨k, v⟩ := q
    rw [keys_cons] at hnd hmem
    have hvk : v.id = k := hid (k, v) (List.mem_cons_self ..)
    by_cases hk : id = k
    · subst hk
      have hrest : rest.countP (fun p => decide (id ≠ p.2.id)) = rest.length := by
        rw [List.countP_eq_length]
        intro p hp
        have h1 : p.2.id = p.1 := hid p (List.mem_cons_of_mem _ hp)
        have h2 : p.1 ∈ keys rest := List.mem_map_of_mem Prod.fst hp
        have h3 : id ∉ keys rest := (List.nodup_cons.1 hnd).1
        simp only [decide_eq_true_eq]
        intro he
        exact h3 (by rw [he, h1]; exact h2)
      rw [List.countP_cons_of_neg, hrest]
      · simp
      · simp [hvk]
    · have hmem2 : id ∈ keys rest := by
        rcases List.mem_cons.1 hmem with he | hm
        · exact absurd he hk
        · exact hm
      have hlen : 1 ≤ rest.length := by
        rcases List.exists_mem_of_ne_nil (keys rest) (by
          intro he
          rw [he] at hmem2
          simp at hmem2) with ⟨x, hx⟩
        have : keys rest ≠ [] := by
          intro he
          rw [he] at hmem2
          simp at hmem2
        have : rest ≠ [] := by
          intro he
          rw [he] at hmem2
          simp [keys] at hmem2
        exact List.length_pos.2 this
      rw [List.countP_cons_of_pos, ih (List.nodup_cons.1 hnd).2
        (fun p hp => hid p (List.mem_cons_of_mem _ hp)) hmem2]
      · simp only [List.length_cons]
        omega
      · simp [hvk, hk]

theorem mapLookup_mapInsert_self (m : Store) (k : String) (v : Todo) :
    mapLookup (mapInsert m k v) k = some v := by
  induction m with
  | nil => simp [mapInsert, mapLookup]
  | cons p rest ih =>
    obtain ⟨k1, v1⟩ := p
    by_cases h : k1 = k
    · subst h
      simp [mapInsert, mapLookup]
    · simp [mapInsert, mapLookup, h, ih]

theorem mapLookup_mapInsert_ne (m : Store) (k k2 : String) (v : Todo) (h : k ≠ k2) :
    mapLookup (mapInsert m k v) k2 = mapLookup m k2 := by
  induction m with
  | nil => simp [mapInsert, mapLookup, h]
  | cons p rest ih =>
    obtain ⟨k1, v1⟩ := p
    by_cases h1 : k1 = k
    · subst h1
      simp [mapInsert, mapLookup, h]
    · simp [mapInsert, mapLookup, h1, ih]

theorem updateTodo_present (s : Store) (id : String) (t v : Todo)
    (h : mapLookup s id = some v) :
    UpdateTodo s id t = ({ t with id := id }, true, mapInsert s id { t with id := id }) := by
  have hforce : (if id ≠ t.id then { t with id := id } else t) = { t with id := id } := by
    by_cases he : id = t.id
    · simp [he]
    · simp [he]
  simp [UpdateTodo, h, hforce]

theorem exists_mapLookup_of_mem_keys (m : Store) (k : String) (h : k ∈ keys m) :
    ∃ v, mapLookup m k = some v := by
  cases hl : mapLookup m k with
  | none => exact absurd h ((mapLookup_eq_none m k).1 hl)
  | some v => exact ⟨v, rfl⟩

/-- C1 counterexample: a store holding one entry keyed "0" whose todo's
`Id` field is "x" (such stores arise from `Initialize`, since the CSV
loader keys rows by index but keeps the id column in the record).  The
key "0" is present and `RemoveTodo "0"` returns success, yet the loop —
which filters on the `Id` field, not the key — removes nothing: the
resulting store still has one entry, not one fewer. -/
theorem removeTodo_counterexample :
    (mapLookup [("0", (⟨"x", "", "", false⟩ : Todo))] "0").isSome = true ∧
    (RemoveTodo [("0", (⟨"x", "", "", false⟩ : Todo))] "0"
      [("0", (⟨"x", "", "", false⟩ : Todo))]).1 = true ∧
    (RemoveTodo [("0", (⟨"x", "", "", false⟩ : Todo))] "0"
      [("0", (⟨"x", "", "", false⟩ : Todo))]).2.length =
      ([("0", (⟨"x", "", "", false⟩ : Todo))] : Store).length := by
  decide

/-- C1 (amended): for every store whose stored todos' `Id` fields equal
their keys (with distinct keys — the invariant of every store reachable
through the API) and every id present in it, `RemoveTodo id` succeeds
under any map-iteration order, the resulting store has exactly one fewer
entry, its keys are exactly the decimal strings of 0 … n-2, and each
remaining todo's `Id` field equals its key. -/
theorem removeTodo_spec (s : Store) (id : String) (iter : List (String × Todo))
    (hperm : iter.Perm s) (hnd : (keys s).Nodup) (hid : ∀ p ∈ s, p.2.id = p.1)
    (hmem : id ∈ keys s) :
    (RemoveTodo s id iter).1 = true ∧
    (RemoveTodo s id iter).2.length = s.length - 1 ∧
    (∀ k, k ∈ keys (RemoveTodo s id iter).2 ↔ ∃ i, i < s.length - 1 ∧ k = Itoa i) ∧
    ∀ p ∈ (RemoveTodo s id iter).2, p.2.id = p.1 := by
  obtain ⟨v, hlk⟩ := exists_mapLookup_of_mem_keys s id hmem
  have hres : RemoveTodo s id iter = (true, renumber id iter 0) := by
    simp [RemoveTodo, hlk, removeLoop_renumber]
  rw [hres]
  have hlen : (renumber id iter 0).length = s.length - 1 := by
    rw [renumber_length, hperm.countP_eq, countP_keep_of_inv id s hnd hid hmem]
  refine ⟨rfl, hlen, ?_, ?_⟩
  · intro k
    rw [show keys (true, renumber id iter 0).2 = keys (renumber id iter 0) from rfl,
      renumber_keys, hlen]
    constructor
    · intro hk
      rcases List.mem_map.1 hk with ⟨i, hi, he⟩
      exact ⟨i, by simpa using (List.mem_range'_1.1 hi).2, he.symm⟩
    · rintro ⟨i, hi, he⟩
      exact List.mem_map.2 ⟨i, List.mem_range'_1.2 ⟨Nat.zero_le i, by simpa using hi⟩, he.symm⟩
  · exact renumber_id_eq_key id iter 0

/-- Witness for `removeTodo_spec`: removing id "1" from the two-entry
store built of ("0", "1")-keyed todos, iterated in store order. -/
theorem removeTodo_spec_witness :
    (RemoveTodo [("0", (⟨"0", "a", "b", false⟩ : Todo)), ("1", ⟨"1", "c", "d", true⟩)] "1"
      [("0", ⟨"0", "a", "b", false⟩), ("1", ⟨"1", "c", "d", true⟩)]).1 = true ∧
    (RemoveTodo [("0", (⟨"0", "a", "b", false⟩ : Todo)), ("1", ⟨"1", "c", "d", true⟩)] "1"
      [("0", ⟨"0", "a", "b", false⟩), ("1", ⟨"1", "c", "d", true⟩)]).2.length =
      ([("0", (⟨"0", "a", "b", false⟩ : Todo)), ("1", ⟨"1", "c", "d", true⟩)] : Store).length
        - 1 ∧
    (∀ k, k ∈ keys (RemoveTodo
        [("0", (⟨"0", "a", "b", false⟩ : Todo)), ("1", ⟨"1", "c", "d", true⟩)] "1"
        [("0", ⟨"0", "a", "b", false⟩), ("1", ⟨"1", "c", "d", true⟩)]).2 ↔
      ∃ i, i < ([("0", (⟨"0", "a", "b", false⟩ : Todo)),
        ("1", ⟨"1", "c", "d", true⟩)] : Store).length - 1 ∧ k = Itoa i) ∧
    ∀ p ∈ (RemoveTodo [("0", (⟨"0", "a", "b", false⟩ : Todo)), ("1", ⟨"1", "c", "d", true⟩)]
      "1" [("0", ⟨"0", "a", "b", false⟩), ("1", ⟨"1", "c", "d", true⟩)]).2, p.2.id = p.1 :=
  removeTodo_spec
    [("0", ⟨"0", "a", "b", false⟩), ("1", ⟨"1", "c", "d", true⟩)] "1"
    [("0", ⟨"0", "a", "b", false⟩), ("1", ⟨"1", "c", "d", true⟩)]
    (List.Perm.refl _) (by decide) (by decide) (by decide)

/-- C10: when `id` is absent, `UpdateTodo` reports failure with the
zero-value todo and `RemoveTodo` reports failure, and both leave the
store exactly as it was (the miss is detected before any mutation). -/
theorem updateRemove_absent (s : Store) (id : String) (t : Todo)
    (iter : List (String × Todo)) (h : mapLookup s id = none) :
    (UpdateTodo s id t).2.1 = false ∧ (UpdateTodo s id t).2.2 = s ∧
    (RemoveTodo s id iter).1 = false ∧ (RemoveTodo s id iter).2 = s := by
  simp [UpdateTodo, RemoveTodo, h]

/-- Witness for `updateRemove_absent`: id "7" is absent from the
one-entry store. -/
theorem updateRemove_absent_witness :
    (UpdateTodo [("0", (⟨"0", "a", "b", false⟩ : Todo))] "7" ⟨"7", "x", "y", true⟩).2.1
        = false ∧
    (UpdateTodo [("0", (⟨"0", "a", "b", false⟩ : Todo))] "7" ⟨"7", "x", "y", true⟩).2.2
        = [("0", (⟨"0", "a", "b", false⟩ : Todo))] ∧
    (RemoveTodo [("0", (⟨"0", "a", "b", false⟩ : Todo))] "7"
      [("0", ⟨"0", "a", "b", false⟩)]).1 = false ∧
    (RemoveTodo [("0", (⟨"0", "a", "b", false⟩ : Todo))] "7"
      [("0", ⟨"0", "a", "b", false⟩)]).2 = [("0", (⟨"0", "a", "b", false⟩ : Todo))] :=
  updateRemove_absent [("0", ⟨"0", "a", "b", false⟩)] "7" ⟨"7", "x", "y", true⟩
    [("0", ⟨"0", "a", "b", false⟩)] (by decide)

/-- C5: `UpdateTodo` fails exactly when the id is absent; on a present
id it returns the input todo with its `Id` field forced to `id`, stores
exactly that record at `id`, and leaves every other key's binding
untouched. -/
theorem updateTodo_spec (s : Store) (id : String) (t : Todo) :
    ((UpdateTodo s id t).2.1 = false ↔ mapLookup s id = none) ∧
    (mapLookup s id ≠ none →
      (UpdateTodo s id t).1 = { t with id := id } ∧
      (UpdateTodo s id t).2.1 = true ∧
      mapLookup (UpdateTodo s id t).2.2 id = some { t with id := id } ∧
      ∀ k, k ≠ id → mapLookup (UpdateTodo s id t).2.2 k = mapLookup s k) := by
  cases h : mapLookup s id with
  | none => simp [UpdateTodo, h]
  | some v =>
    have hforce : (if id ≠ t.id then { t with id := id } else t) = { t with id := id } := by
      by_cases he : id = t.id
      · simp [he]
      · simp [he]
    constructor
    · simp [UpdateTodo, h]
    · intro _
      refine ⟨?_, ?_, ?_, ?_⟩
      · simp [UpdateTodo, h, hforce]
      · simp [UpdateTodo, h]
      · simp only [UpdateTodo, h]
        rw [hforce, mapLookup_mapInsert_self]
      · intro k hk
        simp only [UpdateTodo, h]
        exact mapLookup_mapInsert_ne s id k _ (fun he => hk he.symm)

/-- Witness for `updateTodo_spec`: updating present id "0" and checking
the stored record and an untouched key. -/
theorem updateTodo_spec_witness :
    (((UpdateTodo [("0", (⟨"0", "a", "b", false⟩ : Todo)), ("1", ⟨"1", "c", "d", true⟩)]
        "0" ⟨"9", "x", "y", true⟩).2.1 = false ↔
      mapLookup [("0", (⟨"0", "a", "b", false⟩ : Todo)), ("1", ⟨"1", "c", "d", true⟩)] "0"
        = none)) ∧
    (mapLookup [("0", (⟨"0", "a", "b", false⟩ : Todo)), ("1", ⟨"1", "c", "d", true⟩)] "0"
        ≠ none →
      (UpdateTodo [("0", (⟨"0", "a", "b", false⟩ : Todo)), ("1", ⟨"1", "c", "d", true⟩)]
        "0" ⟨"9", "x", "y", true⟩).1 = { (⟨"9", "x", "y", true⟩ : Todo) with id := "0" } ∧
      (UpdateTodo [("0", (⟨"0", "a", "b", false⟩ : Todo)), ("1", ⟨"1", "c", "d", true⟩)]
        "0" ⟨"9", "x", "y", true⟩).2.1 = true ∧
      mapLookup (UpdateTodo [("0", (⟨"0", "a", "b", false⟩ : Todo)),
        ("1", ⟨"1", "c", "d", true⟩)] "0" ⟨"9", "x", "y", true⟩).2.2 "0"
        = some { (⟨"9", "x", "y", true⟩ : Todo) with id := "0" } ∧
      ∀ k, k ≠ "0" → mapLookup (UpdateTodo [("0", (⟨"0", "a", "b", false⟩ : Todo)),
        ("1", ⟨"1", "c", "d", true⟩)] "0" ⟨"9", "x", "y", true⟩).2.2 k
        = mapLookup [("0", (⟨"0", "a", "b", false⟩ : Todo)),
          ("1", ⟨"1", "c", "d", true⟩)] k) :=
  updateTodo_spec [("0", ⟨"0", "a", "b", false⟩), ("1", ⟨"1", "c", "d", true⟩)] "0"
    ⟨"9", "x", "y", true⟩

theorem storeInv_empty : StoreInv [] := by
  refine ⟨List.nodup_nil, ?_, ?_⟩
  · intro k
    simp [keys]
  · intro p hp
    simp at hp

theorem itoa_length_fresh (s : Store) (hkeys : ∀ k, k ∈ keys s ↔
    ∃ i, i < s.length ∧ k = Itoa i) : Itoa s.length ∉ keys s := by
  intro hmem
  rcases (hkeys _).1 hmem with ⟨i, hi, he⟩
  have : s.length = i := Itoa_injective he
  omega

theorem storeInv_add (s : Store) (t : Todo) (h : StoreInv s) : StoreInv (AddTodo s t).2 := by
  obtain ⟨hnd, hkeys, hid⟩ := h
  have hfresh := itoa_length_fresh s hkeys
  have hins : (AddTodo s t).2 = s ++ [(Itoa s.length, { t with id := Itoa s.length })] := by
    simp [AddTodo, mapInsert_fresh s _ _ hfresh]
  rw [hins]
  refine ⟨?_, ?_, ?_⟩
  · rw [keys_append]
    refine List.Nodup.append hnd (List.nodup_singleton _) ?_
    intro a ha hb
    have : a = Itoa s.length := by simpa [keys] using hb
    exact hfresh (this ▸ ha)
  · intro k
    rw [keys_append, List.length_append]
    constructor
    · intro hk
      rcases List.mem_append.1 hk with hm | hm
      · rcases (hkeys k).1 hm with ⟨i, hi, he⟩
        exact ⟨i, by simp; omega, he⟩
      · refine ⟨s.length, by simp, ?_⟩
        simpa [keys] using hm
    · rintro ⟨i, hi, he⟩
      simp only [List.length_singleton] at hi
      by_cases hc : i < s.length
      · exact List.mem_append.2 (Or.inl ((hkeys k).2 ⟨i, hc, he⟩))
      · have : i = s.length := by omega
        subst this
        exact List.mem_append.2 (Or.inr (by simp [keys, he]))
  · intro p hp
    rcases List.mem_append.1 hp with hm | hm
    · exact hid p hm
    · have : p = (Itoa s.length, { t with id := Itoa s.length }) := by simpa using hm
      rw [this]

theorem storeInv_update (s : Store) (id : String) (t : Todo) (h : StoreInv s) :
    StoreInv (UpdateTodo s id t).2.2 := by
  obtain ⟨hnd, hkeys, hid⟩ := h
  cases hl : mapLookup s id with
  | none =>
    simp only [UpdateTodo, hl]
    exact ⟨hnd, hkeys, hid⟩
  | some v =>
    have hmem : id ∈ keys s := List.mem_map_of_mem Prod.fst (mapLookup_mem s id v hl)
    simp only [UpdateTodo, hl]
    refine ⟨?_, ?_, ?_⟩
    · rw [keys_mapInsert_of_mem s id _ hmem]
      exact hnd
    · intro k
      rw [keys_mapInsert_of_mem s id _ hmem, length_mapInsert_of_mem s id _ hmem]
      exact hkeys k
    · intro p hp
      rcases mem_mapInsert s id _ p hp with he | hm
      · rw [he]
        by_cases he2 : id = t.id <;> simp [he2]
      · exact hid p hm

theorem storeInv_remove (s : Store) (id : String) (iter : List (String × Todo))
    (_hperm : iter.Perm s) (h : StoreInv s) : StoreInv (RemoveTodo s id iter).2 := by
  obtain ⟨hnd, hkeys, hid⟩ := h
  cases hl : mapLookup s id with
  | none =>
    simp only [RemoveTodo, hl]
    exact ⟨hnd, hkeys, hid⟩
  | some v =>
    have hres : (RemoveTodo s id iter).2 = renumber id iter 0 := by
      simp [RemoveTodo, hl, removeLoop_renumber]
    rw [hres]
    refine ⟨?_, ?_, ?_⟩
    · rw [renumber_keys]
      exact List.Nodup.map Itoa_injective (List.nodup_range' ..)
    · intro k
      rw [renumber_keys]
      constructor
      · intro hk
        rcases List.mem_map.1 hk with ⟨i, hi, he⟩
        exact ⟨i, by simpa using (List.mem_range'_1.1 hi).2, he.symm⟩
      · rintro ⟨i, hi, he⟩
        exact List.mem_map.2 ⟨i, List.mem_range'_1.2 ⟨Nat.zero_le i, by simpa using hi⟩,
          he.symm⟩
    · exact renumber_id_eq_key id iter 0

/-- C9: every store state reachable from the empty store by `AddTodo`,
`UpdateTodo`, `RemoveTodo` (under any map-iteration order) and
`DeleteAllTodos` has pairwise-distinct keys whose set is exactly the
decimal strings of 0 … n-1 for n the store size, and every stored
todo's `Id` field equals its map key. -/
theorem reachable_storeInv (s : Store) (h : Reachable s) :
    (keys s).Nodup ∧ (∀ k, k ∈ keys s ↔ ∃ i, i < s.length ∧ k = Itoa i) ∧
    ∀ p ∈ s, p.2.id = p.1 := by
  induction h with
  | empty => exact storeInv_empty
  | add s t _ ih => exact storeInv_add s t ih
  | update s id t _ ih => exact storeInv_update s id t ih
  | remove s id iter _ hp ih => exact storeInv_remove s id iter hp ih
  | deleteAll s _ => exact storeInv_empty

/-- Witness for `reachable_storeInv`: the store reached by one
`AddTodo` from empty. -/
theorem reachable_storeInv_witness :
    (keys (AddTodo [] ⟨"zz", "t", "d", false⟩).2).Nodup ∧
    (∀ k, k ∈ keys (AddTodo [] ⟨"zz", "t", "d", false⟩).2 ↔
      ∃ i, i < (AddTodo [] ⟨"zz", "t", "d", false⟩).2.length ∧ k = Itoa i) ∧
    ∀ p ∈ (AddTodo [] ⟨"zz", "t", "d", false⟩).2, p.2.id = p.1 :=
  reachable_storeInv _ (Reachable.add [] ⟨"zz", "t", "d", false⟩ Reachable.empty)

theorem addTodo_length (s : Store) (t : Todo) (h : StoreInv s) :
    (AddTodo s t).2.length = s.length + 1 := by
  obtain ⟨hnd, hkeys, hid⟩ := h
  simp [AddTodo, mapInsert_fresh s _ _ (itoa_length_fresh s hkeys)]

theorem addAll_ids_aux (todos : List Todo) :
    ∀ s : Store, StoreInv s →
    (addAll s todos).1.map Todo.id = (List.range' s.length todos.length).map Itoa := by
  induction todos with
  | nil =>
    intro s hinv
    simp [addAll]
  | cons t rest ih =>
    intro s hinv
    have hlen := addTodo_length s t hinv
    have hinv2 := storeInv_add s t hinv
    simp only [addAll, List.map_cons, List.range'_succ]
    rw [show (AddTodo s t).1.id = Itoa s.length from rfl]
    rw [ih (AddTodo s t).2 hinv2, hlen]
    simp [List.range'_succ]

/-- C2: adding any list of todos to the empty store hands back records
whose IDs are the decimal strings "0", "1", …, "N-1" in call order,
whatever `Id` values the input todos carried (`AddTodo` overwrites the
field before storing). -/
theorem addTodos_ids (todos : List Todo) :
    (addAll [] todos).1.map Todo.id = (List.range todos.length).map Itoa := by
  have h := addAll_ids_aux todos [] storeInv_empty
  simpa [List.range_eq_range'] using h

theorem insertById_perm (t : Todo) (l : List Todo) : (insertById t l).Perm (t :: l) := by
  induction l with
  | nil => exact List.Perm.refl _
  | cons u rest ih =>
    by_cases h : idKey t ≤ idKey u
    · rw [insertById, if_pos h]
    · rw [insertById, if_neg h]
      exact (ih.cons u).trans (List.Perm.swap t u rest)

theorem sortTodos_perm (todos : List Todo) :
    (sortTodosAfterIdAscending todos).Perm todos := by
  induction todos with
  | nil => exact List.Perm.refl _
  | cons t rest ih =>
    have : sortTodosAfterIdAscending (t :: rest) =
        insertById t (sortTodosAfterIdAscending rest) := rfl
    rw [this]
    exact (insertById_perm t _).trans (ih.cons t)

theorem insertById_sorted (t : Todo) (l : List Todo)
    (h : List.Sorted (fun a b => idKey a ≤ idKey b) l) :
    List.Sorted (fun a b => idKey a ≤ idKey b) (insertById t l) := by
  induction l with
  | nil => simp [insertById]
  | cons u rest ih =>
    rw [List.sorted_cons] at h
    by_cases hle : idKey t ≤ idKey u
    · rw [insertById, if_pos hle, List.sorted_cons]
      refine ⟨?_, List.sorted_cons.2 h⟩
      intro b hb
      rcases List.mem_cons.1 hb with he | hm
      · rw [he]
        exact hle
      · exact le_trans hle (h.1 b hm)
    · rw [insertById, if_neg hle, List.sorted_cons]
      refine ⟨?_, ih h.2⟩
      intro b hb
      have hb2 : b ∈ t :: rest := (insertById_perm t rest).mem_iff.1 hb
      rcases List.mem_cons.1 hb2 with he | hm
      · rw [he]
        exact le_of_not_le hle
      · exact h.1 b hm

theorem sortTodos_sorted (todos : List Todo) :
    List.Sorted (fun a b => idKey a ≤ idKey b) (sortTodosAfterIdAscending todos) := by
  induction todos with
  | nil => simp [sortTodosAfterIdAscending]
  | cons t rest ih => exact insertById_sorted t _ ih

theorem atoi_eq_exact (s : String) (h1 : -(2 ^ 63) ≤ atoiExact s)
    (h2 : atoiExact s ≤ 2 ^ 63 - 1) : Atoi s = atoiExact s := by
  unfold Atoi
  rw [if_neg (by omega), if_neg (by omega)]

/-- C4 counterexample: the comparator key saturates at the int64 limits,
so the exact numeric ordering of the claim can be violated.  The store
holding ids "9223372036854775808" (2^63, clamped by `Atoi` to
2^63 - 1) and "9223372036854775807" (2^63 - 1 exactly) — states the CSV
loader can produce, since the id column is arbitrary — makes the
comparator see a tie, and the sort may emit the numerically larger id
first: GET /todos returns a list that is not sorted ascending by the
exact numeric value of the `Id` field. -/
theorem todosGet_counterexample :
    ([("0", (⟨"9223372036854775808", "t1", "d1", false⟩ : Todo)),
      ("1", ⟨"9223372036854775807", "t2", "d2", false⟩)] : Store).Perm
      [("0", ⟨"9223372036854775808", "t1", "d1", false⟩),
       ("1", ⟨"9223372036854775807", "t2", "d2", false⟩)] ∧
    TodosGet [("0", ⟨"9223372036854775808", "t1", "d1", false⟩),
        ("1", ⟨"9223372036854775807", "t2", "d2", false⟩)] =
      [⟨"9223372036854775808", "t1", "d1", false⟩,
       ⟨"9223372036854775807", "t2", "d2", false⟩] ∧
    exactIdValue (⟨"9223372036854775807", "t2", "d2", false⟩ : Todo) <
      exactIdValue (⟨"9223372036854775808", "t1", "d1", false⟩ : Todo) ∧
    ¬ List.Sorted (fun a b => exactIdValue a ≤ exactIdValue b)
      (TodosGet [("0", ⟨"9223372036854775808", "t1", "d1", false⟩),
        ("1", ⟨"9223372036854775807", "t2", "d2", false⟩)]) := by
  refine ⟨by decide, by decide, by decide, ?_⟩
  intro hs
  have h2 : TodosGet [("0", ⟨"9223372036854775808", "t1", "d1", false⟩),
      ("1", ⟨"9223372036854775807", "t2", "d2", false⟩)] =
    [⟨"9223372036854775808", "t1", "d1", false⟩,
     ⟨"9223372036854775807", "t2", "d2", false⟩] := by decide
  rw [h2, List.sorted_cons] at hs
  have := hs.1 ⟨"9223372036854775807", "t2", "d2", false⟩ (by decide)
  revert this
  decide

/-- C4 (amended): whatever the store's contents, insertion order and
map-iteration order `iter`, the list GET /todos returns is
non-decreasing in the comparator's key — the numeric value of the `Id`
field as `strconv.Atoi` computes it, which clamps ids beyond the int64
range to the boundary — and is a permutation of the store's values;
whenever every stored id's exact numeric value lies within the int64
range (as in every API-reachable store), the list is sorted ascending by
the exact numeric value itself. -/
theorem todosGet_sorted (s : Store) (iter : List (String × Todo)) (hperm : iter.Perm s) :
    List.Sorted (fun a b => Atoi a.id ≤ Atoi b.id) (TodosGet iter) ∧
    (TodosGet iter).Perm (s.map Prod.snd) ∧
    ((∀ p ∈ s, -(2 ^ 63) ≤ exactIdValue p.2 ∧ exactIdValue p.2 ≤ 2 ^ 63 - 1) →
      List.Sorted (fun a b => exactIdValue a ≤ exactIdValue b) (TodosGet iter)) := by
  have hsorted : List.Sorted (fun a b => Atoi a.id ≤ Atoi b.id) (TodosGet iter) := by
    have h := sortTodos_sorted (iter.map Prod.snd)
    simpa [idKey, TodosGet] using h
  have hp : (TodosGet iter).Perm (s.map Prod.snd) :=
    (sortTodos_perm _).trans (hperm.map Prod.snd)
  refine ⟨hsorted, hp, ?_⟩
  intro hrange
  have hmem : ∀ a ∈ TodosGet iter, -(2 ^ 63) ≤ exactIdValue a ∧
      exactIdValue a ≤ 2 ^ 63 - 1 := by
    intro a ha
    rcases List.mem_map.1 (hp.mem_iff.1 ha) with ⟨p, hps, hpe⟩
    exact hpe ▸ hrange p hps
  refine List.Pairwise.imp_of_mem ?_ hsorted
  intro a b ha hb hle
  rw [show Atoi a.id = exactIdValue a from atoi_eq_exact a.id (hmem a ha).1 (hmem a ha).2,
    show Atoi b.id = exactIdValue b from atoi_eq_exact b.id (hmem b hb).1 (hmem b hb).2]
    at hle
  exact hle

/-- Witness for `todosGet_sorted`: a two-entry store with in-range ids,
iterated in reversed order, comes back sorted under both the clamped
comparator key and the exact numeric value. -/
theorem todosGet_sorted_witness :
    List.Sorted (fun a b => Atoi a.id ≤ Atoi b.id)
      (TodosGet [("1", ⟨"1", "c", "d", true⟩), ("0", ⟨"0", "a", "b", false⟩)]) ∧
    (TodosGet [("1", ⟨"1", "c", "d", true⟩), ("0", ⟨"0", "a", "b", false⟩)]).Perm
      (([("0", (⟨"0", "a", "b", false⟩ : Todo)),
        ("1", ⟨"1", "c", "d", true⟩)] : Store).map Prod.snd) ∧
    List.Sorted (fun a b => exactIdValue a ≤ exactIdValue b)
      (TodosGet [("1", ⟨"1", "c", "d", true⟩), ("0", ⟨"0", "a", "b", false⟩)]) :=
  have h := todosGet_sorted [("0", ⟨"0", "a", "b", false⟩), ("1", ⟨"1", "c", "d", true⟩)]
    [("1", ⟨"1", "c", "d", true⟩), ("0", ⟨"0", "a", "b", false⟩)] (by decide)
  ⟨h.1, h.2.1, h.2.2 (by decide)⟩

theorem readRows_eq :
    ∀ (rows : List (List String)) (rowIndex : Nat) (acc : Store),
    (∀ j, rowIndex ≤ j → Itoa j ∉ keys acc) →
    readRows rows rowIndex acc = acc ++ readRowsList rows rowIndex := by
  intro rows
  induction rows with
  | nil =>
    intro rowIndex acc hfresh
    simp [readRows, readRowsList]
  | cons rec rest ih =>
    intro rowIndex acc hfresh
    simp only [readRows, readRowsList]
    rw [mapInsert_fresh acc (Itoa rowIndex) _ (hfresh rowIndex le_rfl)]
    have hfresh2 : ∀ j, rowIndex + 1 ≤ j →
        Itoa j ∉ keys (acc ++ [(Itoa rowIndex, parseTodoData rec)]) := by
      intro j hj
      rw [keys_append]
      intro hmem
      rcases List.mem_append.1 hmem with hm | hm
      · exact hfresh j (by omega) hm
      · have he : Itoa j = Itoa rowIndex := by simpa [keys] using hm
        have : j = rowIndex := Itoa_injective he
        omega
    rw [ih (rowIndex + 1) _ hfresh2, List.append_assoc]
    rfl

theorem getDataFromFile_eq (rows : List (List String)) :
    getDataFromFile rows = readRowsList rows 0 := by
  have := readRows_eq rows 0 [] (by intro j hj; simp [keys])
  simpa [getDataFromFile] using this

theorem readRowsList_length :
    ∀ (rows : List (List String)) (rowIndex : Nat),
    (readRowsList rows rowIndex).length = rows.length := by
  intro rows
  induction rows with
  | nil =>
    intro rowIndex
    simp [readRowsList]
  | cons rec rest ih =>
    intro rowIndex
    simp [readRowsList, ih]

theorem readRowsList_keys :
    ∀ (rows : List (List String)) (rowIndex : Nat),
    keys (readRowsList rows rowIndex) = (List.range' rowIndex rows.length).map Itoa := by
  intro rows
  induction rows with
  | nil =>
    intro rowIndex
    simp [readRowsList, keys]
  | cons rec rest ih =>
    intro rowIndex
    simp only [readRowsList, keys_cons, List.length_cons, List.range'_succ, List.map_cons]
    rw [ih]

theorem readRowsList_lookup :
    ∀ (rows : List (List String)) (rowIndex i : Nat), i < rows.length →
    mapLookup (readRowsList rows rowIndex) (Itoa (rowIndex + i)) =
      some (parseTodoData (rows.getD i [])) := by
  intro rows
  induction rows with
  | nil =>
    intro rowIndex i hi
    simp at hi
  | cons rec rest ih =>
    intro rowIndex i hi
    cases i with
    | zero =>
      simp [readRowsList, mapLookup]
    | succ i =>
      have hne : Itoa rowIndex ≠ Itoa (rowIndex + (i + 1)) := by
        intro he
        have := Itoa_injective he
        omega
      simp only [readRowsList, mapLookup, if_neg hne]
      have := ih (rowIndex + 1) i (by simpa using hi)
      rw [show rowIndex + 1 + i = rowIndex + (i + 1) from by omega] at this
      simpa using this

/-- C6: a successful load replaces the store wholesale (the previous
contents never contribute) with one entry per file row, keyed by the
decimal row index in file order; the entry at row i is the todo parsed
from that row, whose `Id` field is the row's id column (not the key).
The row-length hypothesis records that the Go parser indexes the first
four columns and would panic on a shorter row. -/
theorem initialize_spec (rows : List (List String)) (old : Store)
    (_hrows : ∀ r ∈ rows, 4 ≤ r.length) :
    Initialize rows old = getDataFromFile rows ∧
    (getDataFromFile rows).length = rows.length ∧
    (∀ k, k ∈ keys (getDataFromFile rows) ↔ ∃ i, i < rows.length ∧ k = Itoa i) ∧
    ∀ i, i < rows.length →
      mapLookup (getDataFromFile rows) (Itoa i) = some (parseTodoData (rows.getD i [])) ∧
      (parseTodoData (rows.getD i [])).id = (rows.getD i []).getD 0 "" := by
  refine ⟨rfl, ?_, ?_, ?_⟩
  · rw [getDataFromFile_eq, readRowsList_length]
  · intro k
    rw [getDataFromFile_eq, readRowsList_keys]
    constructor
    · intro hk
      rcases List.mem_map.1 hk with ⟨i, hi, he⟩
      exact ⟨i, by simpa using (List.mem_range'_1.1 hi).2, he.symm⟩
    · rintro ⟨i, hi, he⟩
      exact List.mem_map.2 ⟨i, List.mem_range'_1.2 ⟨Nat.zero_le i, by simpa using hi⟩,
        he.symm⟩
  · intro i hi
    constructor
    · rw [getDataFromFile_eq]
      have := readRowsList_lookup rows 0 i hi
      simpa using this
    · rfl

/-- Witness for `initialize_spec`: loading two well-formed CSV rows over
a non-empty previous store. -/
theorem initialize_spec_witness :
    Initialize [["7", "t1", "d1", "true"], ["5", "t2", "d2", "false"]]
        [("0", ⟨"0", "a", "b", false⟩)] =
      getDataFromFile [["7", "t1", "d1", "true"], ["5", "t2", "d2", "false"]] ∧
    (getDataFromFile [["7", "t1", "d1", "true"], ["5", "t2", "d2", "false"]]).length =
      ([["7", "t1", "d1", "true"], ["5", "t2", "d2", "false"]] : List (List String)).length ∧
    (∀ k, k ∈ keys (getDataFromFile [["7", "t1", "d1", "true"], ["5", "t2", "d2", "false"]])
      ↔ ∃ i, i < ([["7", "t1", "d1", "true"],
        ["5", "t2", "d2", "false"]] : List (List String)).length ∧ k = Itoa i) ∧
    ∀ i, i < ([["7", "t1", "d1", "true"],
        ["5", "t2", "d2", "false"]] : List (List String)).length →
      mapLookup (getDataFromFile [["7", "t1", "d1", "true"], ["5", "t2", "d2", "false"]])
          (Itoa i) =
        some (parseTodoData (([["7", "t1", "d1", "true"],
          ["5", "t2", "d2", "false"]] : List (List String)).getD i [])) ∧
      (parseTodoData (([["7", "t1", "d1", "true"],
          ["5", "t2", "d2", "false"]] : List (List String)).getD i [])).id =
        (([["7", "t1", "d1", "true"],
          ["5", "t2", "d2", "false"]] : List (List String)).getD i []).getD 0 "" :=
  initialize_spec [["7", "t1", "d1", "true"], ["5", "t2", "d2", "false"]]
    [("0", ⟨"0", "a", "b", false⟩)] (by decide)

/-- C7: `TodoStore()` hands out a fresh reference, distinct from the
store's; the map behind it holds exactly the store's entries (same
lookups), the store's contents are untouched by the call, and writing
through the returned reference leaves the map behind the store's
reference exactly as it was. -/
theorem todoStore_snapshot (h : Heap) (iter : List (String × Todo)) (hwf : h.WF)
    (hnd : (keys (h.maps h.storeRef)).Nodup) (hperm : iter.Perm (h.maps h.storeRef)) :
    (TodoStore h iter).1 ≠ h.storeRef ∧
    (TodoStore h iter).2.maps (TodoStore h iter).2.storeRef = h.maps h.storeRef ∧
    (∀ k, mapLookup ((TodoStore h iter).2.maps (TodoStore h iter).1) k =
      mapLookup (h.maps h.storeRef) k) ∧
    ∀ k v, (heapAssign (TodoStore h iter).2 (TodoStore h iter).1 k v).maps h.storeRef =
      h.maps h.storeRef := by
  have hne : h.storeRef ≠ h.nextRef := Nat.ne_of_lt hwf
  have hndi : (keys iter).Nodup := ((hperm.map Prod.fst).nodup_iff).2 hnd
  refine ⟨?_, ?_, ?_, ?_⟩
  · exact fun he => hne he.symm
  · simp [TodoStore, hne]
  · intro k
    simp only [TodoStore, if_pos rfl]
    rw [clone_eq iter hndi]
    exact mapLookup_perm (h.maps h.storeRef) iter hnd hperm k
  · intro k v
    simp [TodoStore, heapAssign, hne]

/-- Witness for `todoStore_snapshot`: a one-entry store at reference 0,
cloned in store order. -/
theorem todoStore_snapshot_witness :
    (TodoStore ⟨fun r => if r = 0 then [("0", ⟨"0", "a", "b", false⟩)] else [], 0, 1⟩
      [("0", ⟨"0", "a", "b", false⟩)]).1 ≠
      (⟨fun r => if r = 0 then [("0", ⟨"0", "a", "b", false⟩)] else [], 0, 1⟩ : Heap).storeRef ∧
    (TodoStore ⟨fun r => if r = 0 then [("0", ⟨"0", "a", "b", false⟩)] else [], 0, 1⟩
        [("0", ⟨"0", "a", "b", false⟩)]).2.maps
      (TodoStore ⟨fun r => if r = 0 then [("0", ⟨"0", "a", "b", false⟩)] else [], 0, 1⟩
        [("0", ⟨"0", "a", "b", false⟩)]).2.storeRef =
      (⟨fun r => if r = 0 then [("0", ⟨"0", "a", "b", false⟩)] else [], 0, 1⟩ : Heap).maps 0 ∧
    (∀ k, mapLookup
        ((TodoStore ⟨fun r => if r = 0 then [("0", ⟨"0", "a", "b", false⟩)] else [], 0, 1⟩
          [("0", ⟨"0", "a", "b", false⟩)]).2.maps
          (TodoStore ⟨fun r => if r = 0 then [("0", ⟨"0", "a", "b", false⟩)] else [], 0, 1⟩
            [("0", ⟨"0", "a", "b", false⟩)]).1) k =
      mapLookup ((⟨fun r => if r = 0 then [("0", ⟨"0", "a", "b", false⟩)] else [], 0, 1⟩
        : Heap).maps 0) k) ∧
    ∀ k v, (heapAssign
        (TodoStore ⟨fun r => if r = 0 then [("0", ⟨"0", "a", "b", false⟩)] else [], 0, 1⟩
          [("0", ⟨"0", "a", "b", false⟩)]).2
        (TodoStore ⟨fun r => if r = 0 then [("0", ⟨"0", "a", "b", false⟩)] else [], 0, 1⟩
          [("0", ⟨"0", "a", "b", false⟩)]).1 k v).maps
      (⟨fun r => if r = 0 then [("0", ⟨"0", "a", "b", false⟩)] else [], 0, 1⟩ : Heap).storeRef =
      (⟨fun r => if r = 0 then [("0", ⟨"0", "a", "b", false⟩)] else [], 0, 1⟩ : Heap).maps 0 :=
  todoStore_snapshot ⟨fun r => if r = 0 then [("0", ⟨"0", "a", "b", false⟩)] else [], 0, 1⟩
    [("0", ⟨"0", "a", "b", false⟩)] (by exact Nat.zero_lt_one) (by decide) (by decide)

/-- C8: the PUT /todos/:id handler 404s exactly when the id is unknown —
the existence check runs before the body is decoded, so a malformed body
still yields 404 there; with a known id and an undecodable body it 400s;
with a known id and a decoded body it 200s, echoing the updated record
(the body's todo with `Id` forced to the path id) and storing it. -/
theorem todoPut_spec (s : Store) (id : String) (body : Option Todo) :
    (mapLookup s id = none → TodoPut s id body = (.notFound, s)) ∧
    (mapLookup s id ≠ none → body = none →
      TodoPut s id body = (.badRequest "Invalid Body", s)) ∧
    ∀ t, mapLookup s id ≠ none → body = some t →
      TodoPut s id body =
        (.okUpdated { t with id := id }, mapInsert s id { t with id := id }) := by
  refine ⟨?_, ?_, ?_⟩
  · intro h
    simp [TodoPut, h]
  · intro h hb
    cases hl : mapLookup s id with
    | none => exact absurd hl h
    | some v =>
      subst hb
      simp [TodoPut, hl]
  · intro t h hb
    cases hl : mapLookup s id with
    | none => exact absurd hl h
    | some v =>
      subst hb
      rw [show TodoPut s id (some t) = (match (UpdateTodo s id t).2.1 with
        | false => (.badRequest "Update data model failed", s)
        | true => (.okUpdated (UpdateTodo s id t).1, (UpdateTodo s id t).2.2)) from by
          simp [TodoPut, hl]]
      rw [updateTodo_present s id t v hl]

/-- Witness for `todoPut_spec`: updating the known id "0" of a one-entry
store with a decoded body. -/
theorem todoPut_spec_witness :
    ((mapLookup [("0", (⟨"0", "a", "b", false⟩ : Todo))] "0" = none →
      TodoPut [("0", (⟨"0", "a", "b", false⟩ : Todo))] "0" (some ⟨"9", "x", "y", true⟩) =
        (.notFound, [("0", (⟨"0", "a", "b", false⟩ : Todo))])) ∧
    (mapLookup [("0", (⟨"0", "a", "b", false⟩ : Todo))] "0" ≠ none →
      (some (⟨"9", "x", "y", true⟩ : Todo)) = none →
      TodoPut [("0", (⟨"0", "a", "b", false⟩ : Todo))] "0" (some ⟨"9", "x", "y", true⟩) =
        (.badRequest "Invalid Body", [("0", (⟨"0", "a", "b", false⟩ : Todo))])) ∧
    ∀ t, mapLookup [("0", (⟨"0", "a", "b", false⟩ : Todo))] "0" ≠ none →
      (some (⟨"9", "x", "y", true⟩ : Todo)) = some t →
      TodoPut [("0", (⟨"0", "a", "b", false⟩ : Todo))] "0" (some ⟨"9", "x", "y", true⟩) =
        (.okUpdated { t with id := "0" },
          mapInsert [("0", (⟨"0", "a", "b", false⟩ : Todo))] "0" { t with id := "0" })) :=
  todoPut_spec [("0", ⟨"0", "a", "b", false⟩)] "0" (some ⟨"9", "x", "y", true⟩)

end TodoBackend
